import Mathlib

/-!
# Verification of the simple-contents content service

Shallow embedding of the content-metadata management service:
the data model (`Content`, `ContentFilter`), the in-memory repository
(`MemoryRepository`, src/unnamed/part_009), the in-memory storage backend
(`MemoryStorage`, src/unnamed/part_005) and the orchestration service
(`ContentService`, src/service/content_service.go).

Modelling conventions:
- `uuid.UUID` is a `Nat`; `uuid.Nil` is `0`; fresh ids produced by
  `uuid.New()` are passed in explicitly as parameters.
- `time.Time` is a `Nat` tick; `t.Before u` is `t < u`, `t.After u` is
  `t > u`; the current time of each mutating call is an explicit parameter.
- A Go map is an association list; its *list order* stands for the
  (unspecified) iteration order of a Go `range` over the map, so two
  permuted lists denote the same map observed under two iterations.
- Byte streams (`io.Reader`) are materialised `List Nat`; `nil` readers are
  `Option.none`.  `metadata map[string]interface{}` values are specialised
  to `String` (only lookup and equality are ever applied to them).
- Capability failures that the in-memory backends cannot produce on their
  own (repository `Create` failure, storage `Delete` failure) are injected
  through a `Faults` record, mirroring the spec's fault-simulating test
  doubles; with both flags off the model is exactly the in-memory backends.
-/

/-- Errors returned by the capability backends: `ErrContentNotFound`, or any
other backend failure (injected via `Faults`). -/
inductive CapErr where
  | notFound
  | backend
deriving Repr, DecidableEq

/-- Errors returned by the orchestration service: `ErrInvalidInput`,
`service.ErrContentNotFound` (the translated not-found), the repository's
own not-found error when the service returns it untranslated, or a backend
error passed through unchanged. -/
inductive SvcErr where
  | invalidInput
  | contentNotFound
  | repoNotFound
  | backend
deriving Repr, DecidableEq

/-- `model.Content`: one stored item's metadata record. -/
structure Content where
  id : Nat
  name : String
  description : String
  contentType : String
  size : Int
  path : String
  metadata : Option (List (String × String))
  createdAt : Nat
  updatedAt : Nat
  deletedAt : Option Nat
deriving Repr, DecidableEq

/-- `model.ContentFilter`: optional predicates for `List`. -/
structure ContentFilter where
  contentType : String
  minSize : Option Int
  maxSize : Option Int
  createdFrom : Option Nat
  createdTo : Option Nat
  metadata : List (String × String)
deriving Repr, DecidableEq

/-- Repository state: the `map[uuid.UUID]*model.Content` of
`MemoryRepository`, as a list of records keyed by their `id` field (every
operation stores a record under its own id, so the key is the field). -/
abbrev RepoSt := List Content

/-- Storage state: the `map[string][]byte` of `MemoryStorage`. -/
abbrev StorSt := List (String × List Nat)

/-- Map lookup in the repository: `r.contents[id]`. -/
def findContent (st : RepoSt) (id : Nat) : Option Content :=
  List.find? (fun c => c.id == id) st

/-- Map write `r.contents[c.ID] = c`: replace the entry with that key if
present, otherwise add a new one. -/
def putContent (st : RepoSt) (c : Content) : RepoSt :=
  if List.any st (fun x => x.id == c.id) then
    List.map (fun x => if x.id == c.id then c else x) st
  else st ++ [c]

/-- Map lookup in storage: `s.storage[path]`. -/
def lookupBytes (st : StorSt) (k : String) : Option (List Nat) :=
  (List.find? (fun kv => kv.1 == k) st).map (fun kv => kv.2)

/-- Map write `s.storage[key] = content`. -/
def putBytes (st : StorSt) (k : String) (v : List Nat) : StorSt :=
  if List.any st (fun kv => kv.1 == k) then
    List.map (fun kv => if kv.1 == k then (k, v) else kv) st
  else st ++ [(k, v)]

/-- Map erase `delete(s.storage, path)`. -/
def eraseBytes (st : StorSt) (k : String) : StorSt :=
  List.filter (fun kv => kv.1 != k) st

namespace MemoryRepository

/-- `MemoryRepository.CreateContent` (src/unnamed/part_009 lines 31-45):
assigns a fresh id when the incoming id is nil, stamps `CreatedAt` and
`UpdatedAt` with `now`, and stores the record; never fails.  Returns the new
state together with the stored record (the Go code mutates the caller's
record in place through the pointer). -/
def CreateContent (st : RepoSt) (c : Content) (freshId now : Nat) :
    RepoSt × Content :=
  let c1 := if c.id == 0 then { c with id := freshId } else c
  let c2 := { c1 with createdAt := now, updatedAt := now }
  (putContent st c2, c2)

/-- `MemoryRepository.GetContentByID` (part_009 lines 48-60): not-found when
the key is absent or the record is soft-deleted; otherwise a copy of the
record. -/
def GetContentByID (st : RepoSt) (id : Nat) : Except CapErr Content :=
  match findContent st id with
  | none => .error .notFound
  | some c => if c.deletedAt != none then .error .notFound else .ok c

/-- `MemoryRepository.UpdateContent` (part_009 lines 63-77): rejected with
not-found when absent or soft-deleted; otherwise overwrites the record,
keeping the previously stored `CreatedAt` and stamping `UpdatedAt := now`.
Returns the new state and, on success, the record as stored (the Go code
mutates the caller's record in place). -/
def UpdateContent (st : RepoSt) (c : Content) (now : Nat) :
    RepoSt × Except CapErr Content :=
  match findContent st c.id with
  | none => (st, .error .notFound)
  | some existing =>
    if existing.deletedAt != none then (st, .error .notFound)
    else
      let c2 := { c with createdAt := existing.createdAt, updatedAt := now }
      (putContent st c2, .ok c2)

/-- `MemoryRepository.DeleteContent` (part_009 lines 80-92): soft delete —
rejected when absent or already deleted, otherwise sets `DeletedAt := now`
on the stored record. -/
def DeleteContent (st : RepoSt) (id : Nat) (now : Nat) :
    RepoSt × Except CapErr Unit :=
  match findContent st id with
  | none => (st, .error .notFound)
  | some c =>
    if c.deletedAt != none then (st, .error .notFound)
    else (putContent st { c with deletedAt := some now }, .ok ())

/-- The per-record filter of `MemoryRepository.ListContent` (part_009 lines
102-139): each `continue` branch of the loop is one conjunct.  (The Go code
guards the metadata loop with `len(filter.Metadata) > 0`; iterating an empty
map is vacuous, so `List.all` over the empty list is the same predicate.) -/
def matchesFilter (f : ContentFilter) (c : Content) : Bool :=
  c.deletedAt == none &&
  (f.contentType == "" || c.contentType == f.contentType) &&
  (match f.minSize with | none => true | some m => !(c.size < m)) &&
  (match f.maxSize with | none => true | some m => !(c.size > m)) &&
  (match f.createdFrom with | none => true | some t => !(c.createdAt < t)) &&
  (match f.createdTo with | none => true | some t => !(c.createdAt > t)) &&
  List.all f.metadata
    (fun kv => (c.metadata.getD []).lookup kv.1 == some kv.2)

/-- `MemoryRepository.ListContent` (part_009 lines 95-160): walks the map in
the order given by `st` (Go `range` order is unspecified — the list order of
the state models one such order), keeps records passing `matchesFilter`,
then slices `[offset:offset+limit]` clamped to the filtered length, and
returns the slice with the pre-pagination count.  `offset`/`limit` are Go
`int`s; the service only ever passes `offset ≥ 0` and `limit ≥ 1`. -/
def ListContent (st : RepoSt) (f : ContentFilter) (offset limit : Int) :
    List Content × Nat :=
  let filtered := List.filter (matchesFilter f) st
  let totalCount := filtered.length
  if offset ≥ (filtered.length : Int) then ([], totalCount)
  else
    let endIdx := min (offset + limit) (filtered.length : Int)
    ((filtered.drop offset.toNat).take (endIdx - offset).toNat, totalCount)

end MemoryRepository

namespace MemoryStorage

/-- `MemoryStorage.Store` (src/unnamed/part_005 lines 33-47): reads the whole
stream and stores it under `key`, overwriting any previous bytes, and
returns the key as the path.  A materialised byte list always reads
successfully, so the only error path of the Go code (a failing reader) is
unreachable here. -/
def Store (st : StorSt) (key : String) (data : List Nat) :
    StorSt × Except CapErr String :=
  (putBytes st key data, .ok key)

/-- `MemoryStorage.Retrieve` (part_005 lines 50-61): the stored bytes, or
not-found. -/
def Retrieve (st : StorSt) (path : String) : Except CapErr (List Nat) :=
  match lookupBytes st path with
  | none => .error .notFound
  | some content => .ok content

/-- `MemoryStorage.Delete` (part_005 lines 64-74): not-found when absent,
otherwise removes the entry. -/
def Delete (st : StorSt) (path : String) : StorSt × Except CapErr Unit :=
  match lookupBytes st path with
  | none => (st, .error .notFound)
  | some _ => (eraseBytes st path, .ok ())

/-- `MemoryStorage.GetURL` (part_005 lines 78-88): not-found when absent,
otherwise a placeholder URL derived from the path. -/
def GetURL (st : StorSt) (path : String) : Except CapErr String :=
  match lookupBytes st path with
  | none => .error .notFound
  | some _ => .ok ("memory://" ++ path)

end MemoryStorage

/-- Fault-injection flags for the capability test doubles (the spec's
"test doubles should simulate both"): `failCreate` makes the repository
`Create` fail with a backend error and no state change; `failDelete` makes
the storage `Delete` fail likewise.  Both `false` gives exactly the
in-memory backends. -/
structure Faults where
  failCreate : Bool
  failDelete : Bool
deriving Repr, DecidableEq

/-- The no-fault configuration. -/
def noFaults : Faults := ⟨false, false⟩

/-- Repository `Create` as seen by the service: the in-memory
implementation, or an injected backend failure leaving the state
untouched. -/
def FaultRepo.Create (cfg : Faults) (st : RepoSt) (c : Content)
    (freshId now : Nat) : RepoSt × Except CapErr Content :=
  if cfg.failCreate then (st, .error .backend)
  else
    let r := MemoryRepository.CreateContent st c freshId now
    (r.1, .ok r.2)

/-- Storage `Delete` as seen by the service: the in-memory implementation,
or an injected backend failure leaving the state untouched. -/
def FaultStorage.Delete (cfg : Faults) (st : StorSt) (path : String) :
    StorSt × Except CapErr Unit :=
  if cfg.failDelete then (st, .error .backend)
  else MemoryStorage.Delete st path

/-- One capability call made by the orchestration service, with the
arguments it passed; the service models below record the calls they make in
order. -/
inductive Ev where
  | store (key : String)
  | storageRetrieve (key : String)
  | storageDelete (key : String)
  | storageGetURL (key : String)
  | repoCreate (id : Nat)
  | repoGet (id : Nat)
  | repoUpdate (id : Nat)
  | repoDelete (id : Nat)
  | repoList (offset limit : Int)
deriving Repr, DecidableEq

/-- Whether a capability call hits the storage capability. -/
def Ev.isStorageCall : Ev → Bool
  | .store _ => true
  | .storageRetrieve _ => true
  | .storageDelete _ => true
  | .storageGetURL _ => true
  | _ => false

/-- Translate a repository error as the service does after `GetByID`
(`errors.Is(err, repository.ErrContentNotFound)`):
`repository.ErrContentNotFound` becomes the service's `ErrContentNotFound`,
everything else passes through. -/
def liftRepoErr : CapErr → SvcErr
  | .notFound => .contentNotFound
  | .backend => .backend

/-- A repository error returned to the caller unchanged (the service's
`Create`, `Update` and `Delete` write paths do `return err` with no
translation). -/
def passRepoErr : CapErr → SvcErr
  | .notFound => .repoNotFound
  | .backend => .backend

/-- `service.CreateContentInput` (content_service.go lines 52-55 use
`Name`, `Description`, `ContentType`, `Size`, `Data`, `Metadata`). -/
structure CreateContentInput where
  name : String
  description : String
  contentType : String
  size : Int
  data : Option (List Nat)
  metadata : Option (List (String × String))
deriving Repr, DecidableEq

/-- `service.UpdateContentInput`. -/
structure UpdateContentInput where
  id : Nat
  name : String
  description : String
  metadata : Option (List (String × String))
deriving Repr, DecidableEq

/-- `service.ListContentInput`. -/
structure ListContentInput where
  contentType : String
  minSize : Option Int
  maxSize : Option Int
  createdFrom : Option Nat
  createdTo : Option Nat
  metadata : List (String × String)
  page : Int
  pageSize : Int
deriving Repr, DecidableEq

/-- `service.ListContentResult`. -/
structure ListContentResult where
  items : List Content
  totalCount : Nat
  page : Int
  pageSize : Int
  totalPages : Nat
deriving Repr, DecidableEq

/-- Outcome of one service call: the returned value or error, the states of
both capabilities afterwards, and the capability calls made. -/
structure SvcOut (α : Type) where
  res : Except SvcErr α
  repo : RepoSt
  stor : StorSt
  trace : List Ev
deriving Repr

/-- `path.Join(contentID.String(), input.Name)` with a non-empty name. -/
def mkStorageKey (id : Nat) (name : String) : String :=
  toString id ++ "/" ++ name

namespace ContentService

/-- `ContentService.CreateContent` (content_service.go lines 52-87):
validate (no side effects on violation); write the bytes to storage under
`"{id}/{name}"`; build the record and write it through the repository; on a
repository failure run a best-effort compensating storage delete, ignore
its outcome, and return the repository error. -/
def CreateContent (cfg : Faults) (repoSt : RepoSt) (storSt : StorSt)
    (newId now : Nat) (input : CreateContentInput) : SvcOut Content :=
  if input.name == "" || input.contentType == "" || input.data == none
      || input.size ≤ 0 then
    ⟨.error .invalidInput, repoSt, storSt, []⟩
  else
    let contentID := newId
    let storageKey := mkStorageKey contentID input.name
    let stored := MemoryStorage.Store storSt storageKey (input.data.getD [])
    match stored.2 with
    | .error _ => ⟨.error .backend, repoSt, storSt, [.store storageKey]⟩
    | .ok storagePath =>
      let content : Content :=
        { id := contentID, name := input.name,
          description := input.description,
          contentType := input.contentType, size := input.size,
          path := storagePath, metadata := input.metadata,
          createdAt := 0, updatedAt := 0, deletedAt := none }
      match FaultRepo.Create cfg repoSt content contentID now with
      | (repoSt1, .error e) =>
        -- Clean up storage if repository creation fails (result discarded);
        -- the repository error itself is returned unchanged
        let cleaned := FaultStorage.Delete cfg stored.1 storagePath
        ⟨.error (passRepoErr e), repoSt1, cleaned.1,
         [.store storageKey, .repoCreate contentID,
          .storageDelete storagePath]⟩
      | (repoSt1, .ok content1) =>
        ⟨.ok content1, repoSt1, stored.1,
         [.store storageKey, .repoCreate contentID]⟩

/-- `ContentService.GetContent` (content_service.go lines 90-100):
read-through to the repository, translating its not-found error. -/
def GetContent (repoSt : RepoSt) (id : Nat) : SvcOut Content :=
  match MemoryRepository.GetContentByID repoSt id with
  | .error e => ⟨.error (liftRepoErr e), repoSt, [], [.repoGet id]⟩
  | .ok c => ⟨.ok c, repoSt, [], [.repoGet id]⟩

/-- `ContentService.UpdateContent` (content_service.go lines 129-158):
reject the nil id; fetch the record; overwrite only the fields supplied
(non-empty strings, non-nil metadata map); write back through the
repository.  Storage is never touched. -/
def UpdateContent (repoSt : RepoSt) (now : Nat)
    (input : UpdateContentInput) : SvcOut Content :=
  if input.id == 0 then ⟨.error .invalidInput, repoSt, [], []⟩
  else
    match MemoryRepository.GetContentByID repoSt input.id with
    | .error e => ⟨.error (liftRepoErr e), repoSt, [], [.repoGet input.id]⟩
    | .ok content =>
      let c1 := if input.name != "" then { content with name := input.name }
                else content
      let c2 := if input.description != "" then
                  { c1 with description := input.description } else c1
      let c3 := match input.metadata with
                | some m => { c2 with metadata := some m }
                | none => c2
      match MemoryRepository.UpdateContent repoSt c3 now with
      | (repoSt1, .error e) =>
        ⟨.error (passRepoErr e), repoSt1, [],
         [.repoGet input.id, .repoUpdate input.id]⟩
      | (repoSt1, .ok c4) =>
        ⟨.ok c4, repoSt1, [], [.repoGet input.id, .repoUpdate input.id]⟩

/-- `ContentService.DeleteContent` (content_service.go lines 161-181):
fetch the record (translating not-found); delete the repository record
first; then attempt the storage delete, whose outcome is discarded. -/
def DeleteContent (cfg : Faults) (repoSt : RepoSt) (storSt : StorSt)
    (id : Nat) (now : Nat) : SvcOut Unit :=
  match MemoryRepository.GetContentByID repoSt id with
  | .error e => ⟨.error (liftRepoErr e), repoSt, storSt, [.repoGet id]⟩
  | .ok content =>
    match MemoryRepository.DeleteContent repoSt id now with
    | (repoSt1, .error e) =>
      ⟨.error (passRepoErr e), repoSt1, storSt, [.repoGet id, .repoDelete id]⟩
    | (repoSt1, .ok _) =>
      -- storage deletion errors are not returned to the caller
      let cleaned := FaultStorage.Delete cfg storSt content.path
      ⟨.ok (), repoSt1, cleaned.1,
       [.repoGet id, .repoDelete id, .storageDelete content.path]⟩

/-- `ContentService.ListContent` (content_service.go lines 205-246):
default page to 1 and pageSize to 20 when non-positive, query the
repository at `offset = (page-1)*pageSize` with `limit = pageSize`, and
return the items with `totalPages = totalCount / pageSize`, rounded up when
there is a remainder.  (Both operands are non-negative, so Go `int`
division and modulus coincide with `Nat` division and modulus after
`Int.toNat` on the positive `pageSize`.) -/
def ListContent (repoSt : RepoSt) (input : ListContentInput) :
    SvcOut ListContentResult :=
  let page := if input.page ≤ 0 then 1 else input.page
  let pageSize := if input.pageSize ≤ 0 then 20 else input.pageSize
  let offset := (page - 1) * pageSize
  let filter : ContentFilter :=
    { contentType := input.contentType, minSize := input.minSize,
      maxSize := input.maxSize, createdFrom := input.createdFrom,
      createdTo := input.createdTo, metadata := input.metadata }
  let r := MemoryRepository.ListContent repoSt filter offset pageSize
  let totalCount := r.2
  let totalPages :=
    totalCount / pageSize.toNat +
      (if totalCount % pageSize.toNat > 0 then 1 else 0)
  ⟨.ok { items := r.1, totalCount := totalCount, page := page,
         pageSize := pageSize, totalPages := totalPages },
   repoSt, [], [.repoList offset pageSize]⟩

end ContentService

/-- The filter predicate as the spec words it: a record is returned iff it
is not deleted and satisfies every *supplied* predicate — exact
content-type match, inclusive size bounds, inclusive creation-time bounds,
and exact match on every supplied metadata key/value pair; omitted
predicates constrain nothing. -/
def SatisfiesFilterSpec (f : ContentFilter) (c : Content) : Prop :=
  c.deletedAt = none ∧
  (f.contentType ≠ "" → c.contentType = f.contentType) ∧
  (∀ m, f.minSize = some m → m ≤ c.size) ∧
  (∀ m, f.maxSize = some m → c.size ≤ m) ∧
  (∀ t, f.createdFrom = some t → t ≤ c.createdAt) ∧
  (∀ t, f.createdTo = some t → c.createdAt ≤ t) ∧
  (∀ k v, (k, v) ∈ f.metadata → (c.metadata.getD []).lookup k = some v)

/-- A live record with id 1, used in the pagination counterexample. -/
def pgRecA : Content :=
  { id := 1, name := "a", description := "", contentType := "text/plain",
    size := 4, path := "1/a", metadata := none, createdAt := 10,
    updatedAt := 10, deletedAt := none }

/-- A live record with id 2, created earlier than `pgRecA`. -/
def pgRecB : Content :=
  { id := 2, name := "b", description := "", contentType := "text/plain",
    size := 4, path := "2/b", metadata := none, createdAt := 5,
    updatedAt := 5, deletedAt := none }

/-- The two-record repository map observed under one iteration order. -/
def pgStateA : RepoSt := [pgRecA, pgRecB]

/-- The same two-record map observed under the other iteration order. -/
def pgStateB : RepoSt := [pgRecB, pgRecA]

/-- An unfiltered list request for the given page with pageSize 1. -/
def pgInput (p : Int) : ListContentInput :=
  { contentType := "", minSize := none, maxSize := none, createdFrom := none,
    createdTo := none, metadata := [], page := p, pageSize := 1 }

/-- The items of one service ListContent page. -/
def pgPage (st : RepoSt) (p : Int) : List Content :=
  match (ContentService.ListContent st (pgInput p)).res with
  | .ok r => r.items
  | .error _ => []

def wRec : Content :=
  { id := 1, name := "a", description := "x", contentType := "text/plain",
    size := 4, path := "1/a", metadata := some [("k", "v")], createdAt := 10,
    updatedAt := 10, deletedAt := none }

def wRecDel : Content := { wRec with deletedAt := some 11 }

def wCreateIn : CreateContentInput :=
  { name := "report.pdf", description := "", contentType := "application/pdf",
    size := 2048, data := some [1, 2, 3], metadata := none }

def wBadIn : CreateContentInput := { wCreateIn with size := 0 }

def wFilter : ContentFilter :=
  { contentType := "text/plain", minSize := some 2, maxSize := none,
    createdFrom := none, createdTo := none, metadata := [] }

/-! ### Helper lemmas -/

theorem find?_map_replace {α : Type _} (p : α → Bool) (c : α) (hc : p c = true)
    (st : List α) (hany : st.any p = true) :
    List.find? p (st.map (fun x => if p x then c else x)) = some c := by
  induction st with
  | nil => simp at hany
  | cons x xs ih =>
    by_cases hx : p x = true
    · rw [List.map_cons, if_pos hx]
      exact List.find?_cons_of_pos _ hc
    · rw [List.map_cons, if_neg hx, List.find?_cons_of_neg _ hx]
      apply ih
      rcases List.any_eq_true.1 hany with ⟨y, hy, hyp⟩
      rcases List.mem_cons.1 hy with rfl | hy'
      · exact absurd hyp hx
      · exact List.any_eq_true.2 ⟨y, hy', hyp⟩

theorem find?_append_singleton {α : Type _} (p : α → Bool) (c : α)
    (hc : p c = true) (st : List α) (hany : st.any p = false) :
    List.find? p (st ++ [c]) = some c := by
  rw [List.find?_append,
    List.find?_eq_none.2 (fun x hx => by simpa using List.any_eq_false.1 hany x hx)]
  simp [List.find?_cons_of_pos _ hc]

theorem findContent_putContent_self (st : RepoSt) (c : Content) :
    findContent (putContent st c) c.id = some c := by
  unfold putContent findContent
  by_cases hany : st.any (fun x => x.id == c.id)
  · rw [if_pos hany]
    exact find?_map_replace _ c (by simp) st hany
  · rw [if_neg hany]
    exact find?_append_singleton _ c (by simp) st (Bool.eq_false_iff.mpr hany)

theorem mem_putContent {st : RepoSt} {c x : Content}
    (hx : x ∈ putContent st c) : x = c ∨ x.id ≠ c.id := by
  unfold putContent at hx
  by_cases hany : st.any (fun y => y.id == c.id)
  · rw [if_pos hany] at hx
    rcases List.mem_map.1 hx with ⟨y, _, rfl⟩
    by_cases h : y.id == c.id
    · rw [if_pos h]; left; rfl
    · rw [if_neg h]; right; simpa using h
  · rw [if_neg hany] at hx
    rcases List.mem_append.1 hx with h | h
    · right
      have := List.any_eq_false.1 (Bool.eq_false_iff.mpr hany) x h
      simpa using this
    · left; simpa using h

theorem lookupBytes_putBytes_self (st : StorSt) (k : String) (v : List Nat) :
    lookupBytes (putBytes st k v) k = some v := by
  unfold putBytes lookupBytes
  by_cases hany : st.any (fun kv => kv.1 == k)
  · rw [if_pos hany, find?_map_replace _ (k, v) (by simp) st hany]
    rfl
  · rw [if_neg hany,
      find?_append_singleton _ (k, v) (by simp) st (Bool.eq_false_iff.mpr hany)]
    rfl

theorem lookupBytes_eraseBytes_self (st : StorSt) (k : String) :
    lookupBytes (eraseBytes st k) k = none := by
  unfold lookupBytes eraseBytes
  rw [Option.map_eq_none', List.find?_eq_none]
  intro kv hkv
  have := List.of_mem_filter hkv
  simp at this ⊢
  exact this

theorem nat_ceil_div (n p : Nat) (hp : 0 < p) :
    n / p + (if n % p > 0 then 1 else 0) = (n + p - 1) / p := by
  have hrw : n + p - 1 = n + (p - 1) := by omega
  rw [hrw, Nat.add_div hp]
  have h1 : (p - 1) / p = 0 := Nat.div_eq_of_lt (by omega)
  have h2 : (p - 1) % p = p - 1 := Nat.mod_eq_of_lt (by omega)
  rw [h1, h2]
  by_cases h : 0 < n % p
  · rw [if_pos h, if_pos (by omega)]
  · rw [if_neg h, if_neg (by omega)]

theorem matchesFilter_deletedAt {f : ContentFilter} {c : Content}
    (h : MemoryRepository.matchesFilter f c = true) : c.deletedAt = none := by
  unfold MemoryRepository.matchesFilter at h
  simp only [Bool.and_eq_true, beq_iff_eq] at h
  exact h.1.1.1.1.1.1

theorem mem_listContent_items {st : RepoSt} {f : ContentFilter}
    {offset limit : Int} {x : Content}
    (hx : x ∈ (MemoryRepository.ListContent st f offset limit).1) :
    x ∈ st ∧ MemoryRepository.matchesFilter f x = true := by
  unfold MemoryRepository.ListContent at hx
  by_cases h0 : offset ≥ ((st.filter (MemoryRepository.matchesFilter f)).length : Int)
  · simp only [h0, if_true] at hx
    simp at hx
  · simp only [h0, if_false] at hx
    have h1 : x ∈ st.filter (MemoryRepository.matchesFilter f) :=
      List.drop_subset _ _ (List.take_subset _ _ hx)
    exact ⟨(List.mem_filter.1 h1).1, (List.mem_filter.1 h1).2⟩

theorem listContent_full (st : RepoSt) (f : ContentFilter) (limit : Int)
    (hlim : (st.length : Int) ≤ limit) :
    MemoryRepository.ListContent st f 0 limit =
      (st.filter (MemoryRepository.matchesFilter f),
       (st.filter (MemoryRepository.matchesFilter f)).length) := by
  unfold MemoryRepository.ListContent
  have hlen : (st.filter (MemoryRepository.matchesFilter f)).length ≤ st.length :=
    List.length_filter_le _ _
  by_cases h0 : (0 : Int) ≥ ((st.filter (MemoryRepository.matchesFilter f)).length : Int)
  · rw [if_pos h0]
    have h1 : (st.filter (MemoryRepository.matchesFilter f)).length = 0 := by omega
    rw [List.length_eq_zero.1 h1]
  · rw [if_neg h0]
    have h2 : min ((0 : Int) + limit)
        ((st.filter (MemoryRepository.matchesFilter f)).length : Int) =
        ((st.filter (MemoryRepository.matchesFilter f)).length : Int) := by
      have : ((st.filter (MemoryRepository.matchesFilter f)).length : Int) ≤ limit := by
        omega
      omega
    rw [h2]
    simp [List.take_length]

theorem matchesFilter_iff (f : ContentFilter) (c : Content) :
    MemoryRepository.matchesFilter f c = true ↔ SatisfiesFilterSpec f c := by
  unfold MemoryRepository.matchesFilter SatisfiesFilterSpec
  obtain ⟨ct, mn, mx, cf, cto, md⟩ := f
  simp only [Bool.and_eq_true, beq_iff_eq, Bool.or_eq_true, List.all_eq_true]
  constructor
  · rintro ⟨⟨⟨⟨⟨⟨h1, h2⟩, h3⟩, h4⟩, h5⟩, h6⟩, h7⟩
    refine ⟨h1, ?_, ?_, ?_, ?_, ?_, ?_⟩
    · intro hct
      rcases h2 with h | h
      · simp_all
      · exact h
    · intro m hm; subst hm; simp at h3; omega
    · intro m hm; subst hm; simp at h4; omega
    · intro t ht; subst ht; simp at h5; omega
    · intro t ht; subst ht; simp at h6; omega
    · intro k v hkv
      have := h7 (k, v) hkv
      simpa using this
  · rintro ⟨h1, h2, h3, h4, h5, h6, h7⟩
    refine ⟨⟨⟨⟨⟨⟨h1, ?_⟩, ?_⟩, ?_⟩, ?_⟩, ?_⟩, ?_⟩
    · by_cases hct : ct = ""
      · left; exact hct
      · right; exact h2 hct
    · cases mn with
      | none => rfl
      | some m => simp; exact h3 m rfl
    · cases mx with
      | none => rfl
      | some m => simp; exact h4 m rfl
    · cases cf with
      | none => rfl
      | some t => simp; exact h5 t rfl
    · cases cto with
      | none => rfl
      | some t => simp; exact h6 t rfl
    · intro kv hkv
      simpa using h7 kv.1 kv.2 hkv

/-- Control-flow case analysis of the service UpdateContent: its trace is
one of the three repository-only call sequences. -/
theorem updateContent_trace_cases (st : RepoSt) (n : Nat)
    (input : UpdateContentInput) :
    (ContentService.UpdateContent st n input).trace = [] ∨
    (ContentService.UpdateContent st n input).trace = [.repoGet input.id] ∨
    (ContentService.UpdateContent st n input).trace =
      [.repoGet input.id, .repoUpdate input.id] := by
  unfold ContentService.UpdateContent
  repeat' split
  all_goals try simp
  all_goals split
  all_goals simp

/-! ### Claim theorems and witnesses -/

/-- C1: repository-create failure triggers best-effort storage compensation;
the caller sees only the repository error and no record is created. -/
theorem createContent_compensation (cfg : Faults) (repoSt : RepoSt)
    (storSt : StorSt) (newId now : Nat) (input : CreateContentInput)
    (hname : input.name ≠ "") (hct : input.contentType ≠ "")
    (hdata : input.data ≠ none) (hsize : 0 < input.size)
    (hfail : cfg.failCreate = true) :
    ContentService.CreateContent cfg repoSt storSt newId now input =
      ⟨.error .backend, repoSt,
       (FaultStorage.Delete cfg
         (putBytes storSt (mkStorageKey newId input.name) (input.data.getD []))
         (mkStorageKey newId input.name)).1,
       [.store (mkStorageKey newId input.name), .repoCreate newId,
        .storageDelete (mkStorageKey newId input.name)]⟩ ∧
    (cfg.failDelete = false →
      MemoryStorage.Retrieve
        (ContentService.CreateContent cfg repoSt storSt newId now input).stor
        (mkStorageKey newId input.name) = .error .notFound) := by
  have hcond : (input.name == "" || input.contentType == "" ||
      input.data == none || decide (input.size ≤ 0)) = false := by
    simp [hname, hct, hdata]
    omega
  have hOut : ContentService.CreateContent cfg repoSt storSt newId now input =
      ⟨.error .backend, repoSt,
       (FaultStorage.Delete cfg
         (putBytes storSt (mkStorageKey newId input.name) (input.data.getD []))
         (mkStorageKey newId input.name)).1,
       [.store (mkStorageKey newId input.name), .repoCreate newId,
        .storageDelete (mkStorageKey newId input.name)]⟩ := by
    unfold ContentService.CreateContent
    rw [hcond]
    dsimp only [MemoryStorage.Store]
    unfold FaultRepo.Create
    rw [hfail]
    rfl
  refine ⟨hOut, ?_⟩
  intro hnf
  rw [hOut]
  unfold FaultStorage.Delete
  rw [hnf]
  unfold MemoryStorage.Delete
  rw [lookupBytes_putBytes_self]
  unfold MemoryStorage.Retrieve
  rw [if_neg (Bool.false_ne_true)]
  rw [lookupBytes_eraseBytes_self]

/-- Concrete instance of the C1 theorem at a failing-create repository. -/
theorem createContent_compensation_witness :
    ContentService.CreateContent ⟨true, false⟩ [] [] 7 3 wCreateIn =
      ⟨.error .backend, [],
       (FaultStorage.Delete ⟨true, false⟩
         (putBytes [] (mkStorageKey 7 "report.pdf") [1, 2, 3])
         (mkStorageKey 7 "report.pdf")).1,
       [.store (mkStorageKey 7 "report.pdf"), .repoCreate 7,
        .storageDelete (mkStorageKey 7 "report.pdf")]⟩ ∧
    MemoryStorage.Retrieve
      (ContentService.CreateContent ⟨true, false⟩ [] [] 7 3 wCreateIn).stor
      (mkStorageKey 7 "report.pdf") = .error .notFound := by
  have h := createContent_compensation ⟨true, false⟩ [] [] 7 3 wCreateIn
    (by decide) (by decide) (by decide) (by decide) rfl
  exact ⟨h.1, h.2 rfl⟩

/-- C2: after a successful DeleteContent, the id is gone from Get and List,
whatever the storage delete did. -/
theorem deleteContent_visibility (cfg : Faults) (repoSt : RepoSt)
    (storSt : StorSt) (id now : Nat) (c : Content)
    (hfind : findContent repoSt id = some c) (hlive : c.deletedAt = none) :
    (ContentService.DeleteContent cfg repoSt storSt id now).res = .ok () ∧
    (ContentService.GetContent
        (ContentService.DeleteContent cfg repoSt storSt id now).repo id).res =
      .error .contentNotFound ∧
    (∀ f offset limit x,
      x ∈ (MemoryRepository.ListContent
            (ContentService.DeleteContent cfg repoSt storSt id now).repo
            f offset limit).1 →
      x.id ≠ id) := by
  have hcid : c.id = id := by
    unfold findContent at hfind
    simpa using List.find?_some hfind
  have hGet : MemoryRepository.GetContentByID repoSt id = .ok c := by
    unfold MemoryRepository.GetContentByID
    rw [hfind]
    dsimp only
    rw [hlive]
    rfl
  have hDel : MemoryRepository.DeleteContent repoSt id now =
      (putContent repoSt { c with deletedAt := some now }, .ok ()) := by
    unfold MemoryRepository.DeleteContent
    rw [hfind]
    dsimp only
    rw [hlive]
    rfl
  have hOut : ContentService.DeleteContent cfg repoSt storSt id now =
      ⟨.ok (), putContent repoSt { c with deletedAt := some now },
       (FaultStorage.Delete cfg storSt c.path).1,
       [.repoGet id, .repoDelete id, .storageDelete c.path]⟩ := by
    unfold ContentService.DeleteContent
    rw [hGet, hDel]
  have hfind' : findContent
      (putContent repoSt { c with deletedAt := some now }) id =
      some { c with deletedAt := some now } := by
    have := findContent_putContent_self repoSt { c with deletedAt := some now }
    simpa [hcid] using this
  refine ⟨by rw [hOut], ?_, ?_⟩
  · rw [hOut]
    unfold ContentService.GetContent MemoryRepository.GetContentByID
    rw [hfind']
    rfl
  · intro f offset limit x hx
    rw [hOut] at hx
    have hmem := mem_listContent_items hx
    have hxdel : x.deletedAt = none := matchesFilter_deletedAt hmem.2
    intro hxid
    rcases mem_putContent hmem.1 with rfl | hne
    · simp at hxdel
    · exact hne (by simpa [hcid] using hxid)

/-- Concrete instance of the C2 theorem with a failing storage delete. -/
theorem deleteContent_visibility_witness :
    (ContentService.DeleteContent ⟨false, true⟩ [wRec] [] 1 20).res = .ok () ∧
    (ContentService.GetContent
        (ContentService.DeleteContent ⟨false, true⟩ [wRec] [] 1 20).repo
        1).res = .error .contentNotFound := by
  have h := deleteContent_visibility ⟨false, true⟩ [wRec] [] 1 20 wRec rfl rfl
  exact ⟨h.1, h.2.1⟩

/-- C3: invalid creation input is rejected with no side effects. -/
theorem createContent_invalid_input (cfg : Faults) (repoSt : RepoSt)
    (storSt : StorSt) (newId now : Nat) (input : CreateContentInput)
    (h : input.name = "" ∨ input.contentType = "" ∨ input.data = none ∨
      input.size ≤ 0) :
    ContentService.CreateContent cfg repoSt storSt newId now input =
      ⟨.error .invalidInput, repoSt, storSt, []⟩ := by
  unfold ContentService.CreateContent
  have hcond : (input.name == "" || input.contentType == "" ||
      input.data == none || decide (input.size ≤ 0)) = true := by
    rcases h with h | h | h | h <;> simp [h]
  rw [if_pos hcond]

/-- Concrete instance of the C3 theorem at size = 0. -/
theorem createContent_invalid_input_witness :
    ContentService.CreateContent noFaults [wRec] [("x", [9])] 7 3 wBadIn =
      ⟨.error .invalidInput, [wRec], [("x", [9])], []⟩ :=
  createContent_invalid_input noFaults [wRec] [("x", [9])] 7 3 wBadIn
    (Or.inr (Or.inr (Or.inr (by decide))))

/-- C4: partial update touches only supplied fields, rejects the nil id,
and never calls storage. -/
theorem updateContent_partial_update (repoSt : RepoSt) (now id : Nat)
    (c : Content) (d : String)
    (hfind : findContent repoSt id = some c) (hlive : c.deletedAt = none)
    (hid : id ≠ 0) (hd : d ≠ "") :
    (∀ st n input, input.id = 0 →
      ContentService.UpdateContent st n input =
        ⟨.error .invalidInput, st, [], []⟩) ∧
    (∀ st n input e, e ∈ (ContentService.UpdateContent st n input).trace →
      e.isStorageCall = false) ∧
    (ContentService.UpdateContent repoSt now ⟨id, "", d, none⟩).res =
      .ok { c with description := d, updatedAt := now } ∧
    (ContentService.GetContent
        (ContentService.UpdateContent repoSt now ⟨id, "", d, none⟩).repo
        id).res =
      .ok { c with description := d, updatedAt := now } := by
  have hcid : c.id = id := by
    unfold findContent at hfind
    simpa using List.find?_some hfind
  have hGet : MemoryRepository.GetContentByID repoSt id = .ok c := by
    unfold MemoryRepository.GetContentByID
    rw [hfind]
    dsimp only
    rw [hlive]
    rfl
  have hUpd : MemoryRepository.UpdateContent repoSt
      { c with description := d } now =
      (putContent repoSt { c with description := d, updatedAt := now },
       .ok { c with description := d, updatedAt := now }) := by
    unfold MemoryRepository.UpdateContent
    dsimp only
    rw [hcid, hfind]
    dsimp only
    rw [hlive]
    rfl
  have hOut : ContentService.UpdateContent repoSt now ⟨id, "", d, none⟩ =
      ⟨.ok { c with description := d, updatedAt := now },
       putContent repoSt { c with description := d, updatedAt := now },
       [], [.repoGet id, .repoUpdate id]⟩ := by
    unfold ContentService.UpdateContent
    rw [if_neg (by simpa using hid)]
    dsimp only
    rw [hGet]
    dsimp only
    rw [if_neg (by simp : ¬ ((("" : String) != "") = true)),
      if_pos (by simpa using hd)]
    rw [hUpd]
  refine ⟨?_, ?_, ?_, ?_⟩
  · intro st n input h0
    unfold ContentService.UpdateContent
    rw [if_pos (by simpa using h0)]
  · intro st n input e he
    rcases updateContent_trace_cases st n input with h | h | h <;> rw [h] at he
    · simp at he
    · simp at he
      subst he
      rfl
    · simp at he
      rcases he with rfl | rfl <;> rfl
  · rw [hOut]
  · rw [hOut]
    unfold ContentService.GetContent MemoryRepository.GetContentByID
    have hfind2 : findContent
        (putContent repoSt { c with description := d, updatedAt := now }) id =
        some { c with description := d, updatedAt := now } := by
      have := findContent_putContent_self repoSt
        { c with description := d, updatedAt := now }
      simpa [hcid] using this
    rw [hfind2]
    dsimp only
    rw [show ({ c with description := d, updatedAt := now } : Content).deletedAt
        = none from hlive]
    rfl

/-- Concrete instance of the C4 theorem: description-only update. -/
theorem updateContent_partial_update_witness :
    (ContentService.UpdateContent [wRec] 33 ⟨1, "", "newdesc", none⟩).res =
      .ok { wRec with description := "newdesc", updatedAt := 33 } ∧
    (ContentService.GetContent
        (ContentService.UpdateContent [wRec] 33 ⟨1, "", "newdesc", none⟩).repo
        1).res =
      .ok { wRec with description := "newdesc", updatedAt := 33 } := by
  have h := updateContent_partial_update [wRec] 33 1 wRec "newdesc" rfl rfl
    (by decide) (by decide)
  exact ⟨h.2.2.1, h.2.2.2⟩

/-- C5 counterexample: with N = 2 records and pageSize P = 1, fetching page
1 and page 2 independently from the *same* map under two of its possible
iteration orders yields the id-1 record twice and never the id-2 record, so
the concatenation of pages 1..ceil(N/P) has a duplicate and an omission. -/
theorem listContent_pagination_counterexample :
    pgStateA.Perm pgStateB ∧
    (pgPage pgStateA 1 ++ pgPage pgStateB 2).map (fun c => c.id) = [1, 1] ∧
    ¬ ((pgPage pgStateA 1 ++ pgPage pgStateB 2).map (fun c => c.id)).Nodup ∧
    (2 : Nat) ∉ (pgPage pgStateA 1 ++ pgPage pgStateB 2).map (fun c => c.id) := by
  have hids : (pgPage pgStateA 1 ++ pgPage pgStateB 2).map (fun c => c.id) =
      [1, 1] := by rfl
  refine ⟨List.Perm.swap pgRecB pgRecA [], hids, ?_, ?_⟩
  · rw [hids]
    decide
  · rw [hids]
    decide

/-- C6: pagination defaults, offset/limit, echo, and ceiling. -/
theorem listContent_defaults_and_ceiling (repoSt : RepoSt)
    (input : ListContentInput) :
    ContentService.ListContent repoSt input =
      ⟨.ok { items := (MemoryRepository.ListContent repoSt
                ⟨input.contentType, input.minSize, input.maxSize,
                 input.createdFrom, input.createdTo, input.metadata⟩
                (((if input.page ≤ 0 then 1 else input.page) - 1) *
                  (if input.pageSize ≤ 0 then 20 else input.pageSize))
                (if input.pageSize ≤ 0 then 20 else input.pageSize)).1,
             totalCount := (MemoryRepository.ListContent repoSt
                ⟨input.contentType, input.minSize, input.maxSize,
                 input.createdFrom, input.createdTo, input.metadata⟩
                (((if input.page ≤ 0 then 1 else input.page) - 1) *
                  (if input.pageSize ≤ 0 then 20 else input.pageSize))
                (if input.pageSize ≤ 0 then 20 else input.pageSize)).2,
             page := if input.page ≤ 0 then 1 else input.page,
             pageSize := if input.pageSize ≤ 0 then 20 else input.pageSize,
             totalPages := ((MemoryRepository.ListContent repoSt
                ⟨input.contentType, input.minSize, input.maxSize,
                 input.createdFrom, input.createdTo, input.metadata⟩
                (((if input.page ≤ 0 then 1 else input.page) - 1) *
                  (if input.pageSize ≤ 0 then 20 else input.pageSize))
                (if input.pageSize ≤ 0 then 20 else input.pageSize)).2 +
                (if input.pageSize ≤ 0 then 20 else input.pageSize).toNat - 1) /
                (if input.pageSize ≤ 0 then 20 else input.pageSize).toNat },
       repoSt, [],
       [.repoList (((if input.page ≤ 0 then 1 else input.page) - 1) *
            (if input.pageSize ≤ 0 then 20 else input.pageSize))
          (if input.pageSize ≤ 0 then 20 else input.pageSize)]⟩ := by
  have hp : 0 < (if input.pageSize ≤ 0 then 20 else input.pageSize).toNat := by
    by_cases h : input.pageSize ≤ 0
    · simp [h]
    · simp only [h, if_false]
      omega
  unfold ContentService.ListContent
  dsimp only
  rw [nat_ceil_div _ _ hp]

/-- C7: ListContent returns exactly the undeleted records passing the
conjunction of the supplied predicates; any returned record, under any
pagination, satisfies every supplied predicate. -/
theorem listContent_filter_conjunction (st : RepoSt) (f : ContentFilter)
    (limit : Int) (hlim : (st.length : Int) ≤ limit) :
    (∀ c, c ∈ (MemoryRepository.ListContent st f 0 limit).1 ↔
      c ∈ st ∧ SatisfiesFilterSpec f c) ∧
    (∀ offset limit' x, x ∈ (MemoryRepository.ListContent st f offset limit').1 →
      SatisfiesFilterSpec f x) := by
  constructor
  · intro c
    rw [listContent_full st f limit hlim]
    simp only [List.mem_filter, matchesFilter_iff]
  · intro offset limit' x hx
    exact (matchesFilter_iff f x).1 (mem_listContent_items hx).2

/-- Concrete instance of the C7 theorem with contentType and minSize set. -/
theorem listContent_filter_conjunction_witness :
    wRec ∈ (MemoryRepository.ListContent [wRec] wFilter 0 5).1 ↔
      wRec ∈ [wRec] ∧ SatisfiesFilterSpec wFilter wRec :=
  (listContent_filter_conjunction [wRec] wFilter 5 (by decide)).1 wRec

/-- C8: a soft-deleted record is logically absent from every read path. -/
theorem softDeleted_logically_absent (st : RepoSt) (id : Nat) (c : Content)
    (hfind : findContent st id = some c) (hdel : c.deletedAt ≠ none) :
    MemoryRepository.GetContentByID st id = .error .notFound ∧
    (ContentService.GetContent st id).res = .error .contentNotFound ∧
    (∀ f offset limit x,
      x ∈ (MemoryRepository.ListContent st f offset limit).1 →
      x.deletedAt = none) ∧
    (∀ c2 now, c2.id = id →
      MemoryRepository.UpdateContent st c2 now = (st, .error .notFound)) := by
  obtain ⟨t, ht⟩ := Option.ne_none_iff_exists'.1 hdel
  have hGet : MemoryRepository.GetContentByID st id = .error .notFound := by
    unfold MemoryRepository.GetContentByID
    rw [hfind]
    dsimp only
    rw [ht]
    rfl
  refine ⟨hGet, ?_, ?_, ?_⟩
  · unfold ContentService.GetContent
    rw [hGet]
    rfl
  · intro f offset limit x hx
    exact matchesFilter_deletedAt (mem_listContent_items hx).2
  · intro c2 now h2
    unfold MemoryRepository.UpdateContent
    rw [h2, hfind]
    dsimp only
    rw [ht]
    rfl

/-- Concrete instance of the C8 theorem on a soft-deleted record. -/
theorem softDeleted_logically_absent_witness :
    MemoryRepository.GetContentByID [wRecDel] 1 = .error .notFound ∧
    (ContentService.GetContent [wRecDel] 1).res = .error .contentNotFound := by
  have h := softDeleted_logically_absent [wRecDel] 1 wRecDel rfl (by decide)
  exact ⟨h.1, h.2.1⟩

/-- C9: repository update preserves CreatedAt, stamps UpdatedAt, and is
rejected without state change on absent or soft-deleted records. -/
theorem memRepo_update_semantics (st : RepoSt) (c : Content) (now : Nat) :
    (∀ existing, findContent st c.id = some existing →
      existing.deletedAt = none →
      MemoryRepository.UpdateContent st c now =
        (putContent st { c with createdAt := existing.createdAt,
                                updatedAt := now },
         .ok { c with createdAt := existing.createdAt, updatedAt := now }) ∧
      findContent (MemoryRepository.UpdateContent st c now).1 c.id =
        some { c with createdAt := existing.createdAt, updatedAt := now }) ∧
    (findContent st c.id = none →
      MemoryRepository.UpdateContent st c now = (st, .error .notFound)) ∧
    (∀ existing, findContent st c.id = some existing →
      existing.deletedAt ≠ none →
      MemoryRepository.UpdateContent st c now = (st, .error .notFound)) := by
  refine ⟨?_, ?_, ?_⟩
  · intro existing hfind hlive
    have heq : MemoryRepository.UpdateContent st c now =
        (putContent st { c with createdAt := existing.createdAt,
                                updatedAt := now },
         .ok { c with createdAt := existing.createdAt, updatedAt := now }) := by
      unfold MemoryRepository.UpdateContent
      rw [hfind]
      dsimp only
      rw [hlive]
      rfl
    refine ⟨heq, ?_⟩
    rw [heq]
    exact findContent_putContent_self st _
  · intro hnone
    unfold MemoryRepository.UpdateContent
    rw [hnone]
  · intro existing hfind hdel
    obtain ⟨t, ht⟩ := Option.ne_none_iff_exists'.1 hdel
    unfold MemoryRepository.UpdateContent
    rw [hfind]
    dsimp only
    rw [ht]
    rfl

/-- Concrete instance of the C9 theorem: the incoming CreatedAt 99 is
overwritten with the stored value 10. -/
theorem memRepo_update_semantics_witness :
    MemoryRepository.UpdateContent [wRec]
        { wRec with name := "b", createdAt := 99 } 42 =
      (putContent [wRec]
         { wRec with name := "b", createdAt := 10, updatedAt := 42 },
       .ok { wRec with name := "b", createdAt := 10, updatedAt := 42 }) := by
  have h := (memRepo_update_semantics [wRec]
    { wRec with name := "b", createdAt := 99 } 42).1 wRec rfl rfl
  exact h.1

/-- C10: in-memory storage round-trip — Retrieve after Store returns
exactly the stored bytes; Store on an occupied key overwrites silently and
returns the key without error; Retrieve, Delete and GetURL on an absent key
each return the storage not-found error. -/
theorem memoryStorage_roundtrip (st : StorSt) (k : String) (d d2 : List Nat) :
    (MemoryStorage.Retrieve (MemoryStorage.Store st k d).1 k = .ok d) ∧
    ((MemoryStorage.Store (MemoryStorage.Store st k d).1 k d2).2 = .ok k ∧
      MemoryStorage.Retrieve
        (MemoryStorage.Store (MemoryStorage.Store st k d).1 k d2).1 k =
        .ok d2) ∧
    (lookupBytes st k = none →
      MemoryStorage.Retrieve st k = .error .notFound ∧
      MemoryStorage.Delete st k = (st, .error .notFound) ∧
      MemoryStorage.GetURL st k = .error .notFound) := by
  refine ⟨?_, ⟨rfl, ?_⟩, ?_⟩
  · unfold MemoryStorage.Retrieve MemoryStorage.Store
    rw [lookupBytes_putBytes_self]
  · unfold MemoryStorage.Retrieve MemoryStorage.Store
    rw [lookupBytes_putBytes_self]
  · intro h
    unfold MemoryStorage.Retrieve MemoryStorage.Delete MemoryStorage.GetURL
    rw [h]
    exact ⟨rfl, rfl, rfl⟩

/-- Concrete instance of the C10 theorem. -/
theorem memoryStorage_roundtrip_witness :
    MemoryStorage.Retrieve (MemoryStorage.Store [] "k" [1, 2]).1 "k" =
      .ok [1, 2] ∧
    MemoryStorage.Retrieve [] "k" = .error .notFound := by
  have h := memoryStorage_roundtrip [] "k" [1, 2] [3]
  exact ⟨h.1, (h.2.2 rfl).1⟩
